import Mathlib

/-!
Go-Worker-Pool load tester: the accounting core of `WorkerPoolTester.js`.

A shallow embedding of the component `frontend/src/component/WorkerPoolTester.js`:
the request function `sendSingleRequest`, the state updaters of `startLoadTest`,
the derived views `getTotalDuration` / `getAverageDuration` and the sorted render
of the results list.

Conventions of the embedding.

* JavaScript `null` in the field `error` is `none`; in the field `data`, which
  holds whatever `response.json()` produced, it is `JSONValue.null`.
* `Date.now()` values are integers (milliseconds); counters are naturals.
* A promise is represented by the way it settles: `Except JSError α`
  (`.ok v` = fulfilled with `v`, `.error e` = rejected with `e`).
* React state (`results`, `stats`) is passed explicitly; a functional updater
  `setX(prev => f prev)` is the function `f`.
-/

namespace WorkerPoolTester

/-! ## Data model -/

/-- A parsed JSON value, as produced by `response.json()`. -/
inductive JSONValue where
  | null : JSONValue
  | bool (b : Bool) : JSONValue
  | num (n : Int) : JSONValue
  | str (s : String) : JSONValue
  | arr (items : List JSONValue) : JSONValue
  | obj (fields : List (String × JSONValue)) : JSONValue

/-- A thrown JavaScript error value; the code only ever reads `err.message`. -/
structure JSError where
  message : String
  deriving DecidableEq, Repr

/-- The record built by `sendSingleRequest` (and by the `catch` of `startLoadTest`). -/
structure Outcome where
  id : Nat
  status : String
  duration : Int
  timestamp : String
  error : Option String
  data : JSONValue

/-- The `stats` state of the component. -/
structure Stats where
  total : Nat
  completed : Nat
  success : Nat
  failed : Nat
  startTime : Option Int
  endTime : Option Int
  deriving DecidableEq, Repr

/-- The two pieces of React state the accounting works on. -/
structure State where
  results : List Outcome
  stats : Stats

/-! ## `clearResults` and the run-start step of `startLoadTest` -/

/-- The function `clearResults`: `setResults([])` and `setStats({0, 0, 0, 0, null, null})`. -/
def clearResults (_prev : State) : State :=
  { results := [],
    stats := { total := 0, completed := 0, success := 0, failed := 0,
               startTime := none, endTime := none } }

/-- Lines 116-126 of `startLoadTest`: `clearResults()` followed by the `setStats`
that installs `total = requestCount` and `startTime = Date.now()`. -/
def runStart (requestCount : Nat) (startTime : Int) (prev : State) : State :=
  let cleared := clearResults prev
  { cleared with
    stats := { total := requestCount, completed := 0, success := 0, failed := 0,
               startTime := some startTime, endTime := none } }

/-! ## The per-outcome updaters of `startLoadTest` (lines 134-167) -/

/-- The updater `prev => [...prev, result]` given to `setResults`. -/
def appendResult (result : Outcome) (prev : List Outcome) : List Outcome :=
  prev ++ [result]

/-- The updater given to `setStats` in the `try` branch. -/
def countResult (result : Outcome) (prev : Stats) : Stats :=
  { prev with
    completed := prev.completed + 1,
    success := if result.status = "success" then prev.success + 1 else prev.success,
    failed := if result.status = "error" then prev.failed + 1 else prev.failed }

/-- The updater given to `setStats` in the `catch` branch. -/
def countRejection (prev : Stats) : Stats :=
  { prev with completed := prev.completed + 1, failed := prev.failed + 1 }

/-- The record `errorResult` built in the `catch` branch for the promise at `index`. -/
def errorResult (index : Nat) (timestamp : String) (err : JSError) : Outcome :=
  { id := index + 1, status := "error", duration := 0, timestamp := timestamp,
    error := some err.message, data := JSONValue.null }

/-- One arrival at the callback of `promises.map(async (promise, index) => ...)`:
the way the awaited promise settled, the index it has in `promises`, and the
locale time string the `catch` branch would read. -/
structure Arrival where
  promise : Except JSError Outcome
  index : Nat
  timestamp : String

/-- The outcome the callback returns (and appends) for an arrival. -/
def Arrival.outcome (a : Arrival) : Outcome :=
  match a.promise with
  | .ok result => result
  | .error err => errorResult a.index a.timestamp err

/-- The body of the `map` callback after `await promise`: both state updates of
the branch taken. -/
def onSettled (s : State) (a : Arrival) : State :=
  match a.promise with
  | .ok result =>
      { results := appendResult result s.results,
        stats := countResult result s.stats }
  | .error err =>
      { results := appendResult (errorResult a.index a.timestamp err) s.results,
        stats := countRejection s.stats }

/-- Arrivals handled one at a time, in the order given. -/
def applyArrivals (s : State) (arrivals : List Arrival) : State :=
  arrivals.foldl onSettled s

/-! ## `sendSingleRequest` (lines 60-107) -/

/-- What the code reads from the `Response` that `fetch` resolved with: the
status code and the way `response.text()` / `response.json()` settle. -/
structure Response where
  status : Nat
  text : Except JSError String
  json : Except JSError JSONValue

/-- The getter `response.ok` of the Fetch standard: the status is in 200..299. -/
def Response.ok (response : Response) : Bool :=
  decide (200 ≤ response.status ∧ response.status ≤ 299)

/-- Everything outside the function that one call of `sendSingleRequest` observes:
the clock and locale time string at each place they are read, and how `fetch`
settles. -/
structure RequestEnv where
  startTime : Int
  fetch : Except JSError Response
  /-- The value of `Date.now()` read in the `try` block, after `fetch` resolved. -/
  endTime : Int
  /-- The string `new Date().toLocaleTimeString(...)` read in the `try` block. -/
  timestamp : String
  /-- The value of `Date.now()` read in the `catch` block. -/
  catchEndTime : Int
  /-- The string `new Date().toLocaleTimeString(...)` read in the `catch` block. -/
  catchTimestamp : String

/-- The expression `errorText || ("HTTP " + response.status)` (a template literal
in the source): the empty string is the only falsy string. -/
def errorTextOrStatus (errorText : String) (status : Nat) : String :=
  if errorText = "" then "HTTP " ++ toString status else errorText

/-- The `try` block of `sendSingleRequest`; `.error err` means `err` was thrown
inside it. -/
def sendSingleRequest.tryBlock (env : RequestEnv) (requestId : Nat) :
    Except JSError Outcome :=
  match env.fetch with
  | .error err => .error err
  | .ok response =>
    let duration := env.endTime - env.startTime
    let result : Outcome :=
      { id := requestId, status := "success", duration := duration,
        timestamp := env.timestamp, error := none, data := JSONValue.null }
    if !response.ok then
      match response.text with
      | .error err => .error err
      | .ok errorText =>
        .ok { result with
              status := "error",
              error := some (errorTextOrStatus errorText response.status) }
    else
      match response.json with
      | .error err => .error err
      | .ok data => .ok { result with data := data }

/-- The function `sendSingleRequest`: the `try` block, and the `catch` block that
turns anything thrown into an outcome. The result is the settlement of the
promise the `async` function returns. -/
def sendSingleRequest (env : RequestEnv) (requestId : Nat) : Except JSError Outcome :=
  match sendSingleRequest.tryBlock env requestId with
  | .ok result => .ok result
  | .error err =>
    let duration := env.catchEndTime - env.startTime
    .ok { id := requestId, status := "error", duration := duration,
          timestamp := env.catchTimestamp, error := some err.message,
          data := JSONValue.null }

/-! ## The run of `startLoadTest` (lines 109-179) -/

/-- The loop `for (let i = 1; i <= requestCount; i++) promises.push(send(i))`,
entered with loop variable `i` and the array built so far. -/
def pushPromises {α : Type} (send : Nat → α) (requestCount : Nat) (i : Nat)
    (promises : List α) : List α :=
  if i ≤ requestCount then
    pushPromises send requestCount (i + 1) (promises ++ [send i])
  else promises
termination_by requestCount + 1 - i

/-- The array `promises` of `startLoadTest`; `world i` is what the call
`sendSingleRequest(i)` observes. -/
def dispatch (world : Nat → RequestEnv) (requestCount : Nat) :
    List (Except JSError Outcome) :=
  pushPromises (fun i => sendSingleRequest (world i) i) requestCount 1 []

/-- The final updater `prev => ({...prev, endTime})`. -/
def setEndTime (endTime : Int) (prev : Stats) : Stats :=
  { prev with endTime := some endTime }

/-- A point in a run: the React state, the indices of `promises` whose callback
has run, and whether the code after `await Promise.all(requests)` has run. -/
structure RunState where
  state : State
  settled : List Nat
  finished : Bool

/-- What can happen during a run after the dispatch loop. -/
inductive Event where
  /-- The promise at `index` settles and its `map` callback runs; `timestamp` is
  the locale time string at that moment. -/
  | settle (index : Nat) (timestamp : String) : Event
  /-- The call `Promise.all(requests)` resolves and the final `setStats` runs with
  `endTime = Date.now()`. -/
  | allSettled (endTime : Int) : Event
  deriving DecidableEq, Repr

/-- Whether an event is the final `endTime` update. -/
def Event.isAllSettled : Event → Bool
  | .settle _ _ => false
  | .allSettled _ => true

/-- One event of a run. A promise settles once, so `settle index` is possible
only for an index of `promises` that has not settled; `Promise.all` resolves only
when every callback has run, and the code after it runs once. -/
def step (promises : List (Except JSError Outcome)) (s : RunState) :
    Event → Option RunState
  | .settle index timestamp =>
    match promises[index]? with
    | none => none
    | some promise =>
      if index ∈ s.settled then none
      else some { state := onSettled s.state ⟨promise, index, timestamp⟩,
                  settled := s.settled ++ [index],
                  finished := s.finished }
  | .allSettled endTime =>
    if s.finished = false ∧ ∀ i ∈ List.range promises.length, i ∈ s.settled then
      some { state := { s.state with stats := setEndTime endTime s.state.stats },
             settled := s.settled,
             finished := true }
    else none

/-- A sequence of events, from a given point of the run. -/
def runEvents (promises : List (Except JSError Outcome)) (s : RunState) :
    List Event → Option RunState
  | [] => some s
  | e :: es =>
    match step promises s e with
    | none => none
    | some s' => runEvents promises s' es

/-- The point of the run right after the run-start `setStats`. -/
def startLoadTest.init (requestCount : Nat) (startTime : Int) (prev : State) : RunState :=
  { state := runStart requestCount startTime prev, settled := [], finished := false }

/-- The run of `startLoadTest` with a file selected: run start, dispatch of
`requestCount` requests, then the given events. `none` when the events are not a
possible history of the run. -/
def startLoadTest (world : Nat → RequestEnv) (requestCount : Nat) (startTime : Int)
    (prev : State) (events : List Event) : Option RunState :=
  runEvents (dispatch world requestCount) (startLoadTest.init requestCount startTime prev)
    events

/-- The facts that hold at every point of a run over `promises` started with
request count `n`; the run theorems are proved by showing that each event keeps
them. -/
structure RunInvariant (promises : List (Except JSError Outcome)) (n : Nat)
    (s : RunState) : Prop where
  settled_nodup : s.settled.Nodup
  settled_lt : ∀ i ∈ s.settled, i < promises.length
  completed_eq : s.state.stats.completed = s.settled.length
  conservation : s.state.stats.completed = s.state.stats.success + s.state.stats.failed
  total_eq : s.state.stats.total = n
  ids_eq : s.state.results.map (fun o => o.id) = s.settled.map (fun i => i + 1)
  endTime_iff : s.state.stats.endTime ≠ none ↔ s.finished = true
  finished_all : s.finished = true → ∀ i, i < promises.length → i ∈ s.settled

/-! ## Derived views (lines 185-194) -/

/-- JavaScript truthiness of a value that is `null` or a number. -/
def truthy : Option Int → Bool
  | none => false
  | some t => t != 0

/-- JavaScript `ToNumber` of a value that is `null` or a number. -/
def toNumber : Option Int → Int
  | none => 0
  | some t => t

/-- The function `getTotalDuration`. -/
def getTotalDuration (stats : Stats) : Int :=
  if !truthy stats.startTime || !truthy stats.endTime then 0
  else toNumber stats.endTime - toNumber stats.startTime

/-- The function `Math.round`: the nearest integer, halves towards `+∞`. -/
def mathRound (x : ℚ) : Int := ⌊x + 1 / 2⌋

/-- The function `getAverageDuration`; the division is the exact quotient. -/
def getAverageDuration (results : List Outcome) : Int :=
  if results.length = 0 then 0
  else
    let total : Int := results.foldl (fun sum r => sum + r.duration) 0
    mathRound ((total : ℚ) / (results.length : ℚ))

/-! ## The results render (lines 449-451) -/

/-- The comparator `(a, b) => a.id - b.id`. -/
def compareId (a b : Outcome) : Int := (a.id : Int) - (b.id : Int)

/-- Insertion of `a` in front of the first element it does not compare greater
than. -/
def sortInsert {α : Type} (cmp : α → α → Int) (a : α) : List α → List α
  | [] => [a]
  | b :: rest => if cmp a b ≤ 0 then a :: b :: rest else b :: sortInsert cmp a rest

/-- The elements of an array as `Array.prototype.sort(cmp)` leaves them: sorted by
`cmp`, elements comparing equal keeping their order (the sort is stable). -/
def arraySort {α : Type} (cmp : α → α → Int) : List α → List α
  | [] => []
  | a :: rest => sortInsert cmp a (arraySort cmp rest)

/-- The effect of evaluating `results.sort((a, b) => a.id - b.id)` in the render. -/
structure RenderEffect where
  /-- The contents of the `results` state array after the expression. -/
  stored : List Outcome
  /-- The array the rows are mapped from. -/
  displayed : List Outcome

/-- The render expression `results.sort((a, b) => a.id - b.id)`.
`Array.prototype.sort` sorts the array it is called on in place and returns that
same array; the expression is applied to the state array itself, not to a copy. -/
def renderResults (results : List Outcome) : RenderEffect :=
  let sorted := arraySort compareId results
  { stored := sorted, displayed := sorted }

/-! ## Sample inputs -/

/-- The arrival of a fulfilled promise carrying an outcome with the given id and
status. -/
def sampleArrival (id : Nat) (status : String) : Arrival :=
  { promise := .ok { id := id, status := status, duration := 7, timestamp := "12:00:00",
                     error := if status = "error" then some "overloaded" else none,
                     data := JSONValue.null },
    index := id - 1, timestamp := "12:00:00" }

/-- Ten arrivals, interleaved: ids 1..10, odd ids succeed and even ids fail. -/
def tenArrivals : List Arrival :=
  [sampleArrival 3 "success", sampleArrival 2 "error", sampleArrival 1 "success",
   sampleArrival 10 "error", sampleArrival 5 "success", sampleArrival 4 "error",
   sampleArrival 7 "success", sampleArrival 6 "error", sampleArrival 9 "success",
   sampleArrival 8 "error"]

/-- A request whose response is 200 but whose body fails to parse as JSON. -/
def badJsonEnv : RequestEnv :=
  { startTime := 1000,
    fetch := .ok { status := 200, text := .ok "<html>", json := .error ⟨"Unexpected token <"⟩ },
    endTime := 1040, timestamp := "12:00:01",
    catchEndTime := 1042, catchTimestamp := "12:00:02" }

/-- A request answered with status 500 and the given body text. -/
def serverErrorEnv (body : String) : RequestEnv :=
  { startTime := 1000,
    fetch := .ok { status := 500, text := .ok body, json := .error ⟨"Unexpected token o"⟩ },
    endTime := 1040, timestamp := "12:00:01",
    catchEndTime := 1042, catchTimestamp := "12:00:02" }

/-- A request answered with status 200 and a body that parses to the given value. -/
def successEnv (value : JSONValue) : RequestEnv :=
  { startTime := 1000,
    fetch := .ok { status := 200, text := .ok "", json := .ok value },
    endTime := 1040, timestamp := "12:00:01",
    catchEndTime := 1042, catchTimestamp := "12:00:02" }

/-- A world in which request 2 is answered 500 "overloaded" and every other
request is answered 200 with the body `"A1"`. -/
def sampleWorld (requestId : Nat) : RequestEnv :=
  if requestId = 2 then serverErrorEnv "overloaded" else successEnv (JSONValue.str "A1")

/-- The state of a component on which no run has taken place. -/
def idleState : State :=
  { results := [],
    stats := { total := 0, completed := 0, success := 0, failed := 0,
               startTime := none, endTime := none } }

/-- A success outcome with the given id and duration. -/
def sampleOutcome (id : Nat) (duration : Int) : Outcome :=
  { id := id, status := "success", duration := duration, timestamp := "12:00:01",
    error := none, data := JSONValue.str "A1" }

/-- A results collection in which request 2 arrived before request 1. -/
def outOfOrderResults : List Outcome := [sampleOutcome 2 1, sampleOutcome 1 2]

/-- The stats of a complete run of one request started at timestamp 0 and finished
at timestamp 1500. -/
def epochStartStats : Stats :=
  { total := 1, completed := 1, success := 1, failed := 0,
    startTime := some 0, endTime := some 1500 }

/-- The history in which request 2 and then request 1 of three have arrived. -/
def twoOfThreeEvents : List Event :=
  [Event.settle 1 "12:00:03", Event.settle 0 "12:00:04"]

/-- The point reached by `twoOfThreeEvents` in `sampleWorld`. -/
def twoOfThreeState : RunState :=
  { state :=
      { results :=
          [⟨2, "error", 40, "12:00:01", some "overloaded", JSONValue.null⟩,
           ⟨1, "success", 40, "12:00:01", none, JSONValue.str "A1"⟩],
        stats := ⟨3, 2, 1, 1, some 1000, none⟩ },
    settled := [1, 0],
    finished := false }

/-- The history in which four of five attempts have arrived and the attempt at
index 1 has not settled. -/
def fourOfFiveEvents : List Event :=
  [Event.settle 3 "12:00:03", Event.settle 0 "12:00:03", Event.settle 4 "12:00:04",
   Event.settle 2 "12:00:05"]

/-- The point reached by `fourOfFiveEvents` in `sampleWorld`. -/
def fourOfFiveState : RunState :=
  { state :=
      { results :=
          [⟨4, "success", 40, "12:00:01", none, JSONValue.str "A1"⟩,
           ⟨1, "success", 40, "12:00:01", none, JSONValue.str "A1"⟩,
           ⟨5, "success", 40, "12:00:01", none, JSONValue.str "A1"⟩,
           ⟨3, "success", 40, "12:00:01", none, JSONValue.str "A1"⟩],
        stats := ⟨5, 4, 4, 0, some 1000, none⟩ },
    settled := [3, 0, 4, 2],
    finished := false }

/-- The history of a complete run of three requests settling in the order 3, 1, 2. -/
def completeEvents : List Event :=
  [Event.settle 2 "12:00:03", Event.settle 0 "12:00:03", Event.settle 1 "12:00:04",
   Event.allSettled 1100]

/-- The point reached by `completeEvents` in `sampleWorld`. -/
def completeState : RunState :=
  { state :=
      { results :=
          [⟨3, "success", 40, "12:00:01", none, JSONValue.str "A1"⟩,
           ⟨1, "success", 40, "12:00:01", none, JSONValue.str "A1"⟩,
           ⟨2, "error", 40, "12:00:01", some "overloaded", JSONValue.null⟩],
        stats := ⟨3, 3, 2, 1, some 1000, some 1100⟩ },
    settled := [2, 0, 1],
    finished := true }

/-! ## Lemmas on the per-outcome updaters -/

theorem onSettled_results (s : State) (a : Arrival) :
    (onSettled s a).results = s.results ++ [a.outcome] := by
  unfold onSettled Arrival.outcome
  cases a.promise <;> rfl

theorem onSettled_completed (s : State) (a : Arrival) :
    (onSettled s a).stats.completed = s.stats.completed + 1 := by
  unfold onSettled
  cases a.promise <;> rfl

theorem onSettled_success (s : State) (a : Arrival) :
    (onSettled s a).stats.success =
      s.stats.success + (if a.outcome.status = "success" then 1 else 0) := by
  unfold onSettled Arrival.outcome
  cases a.promise with
  | ok result => by_cases h : result.status = "success" <;> simp [countResult, h]
  | error err => simp [countRejection, errorResult]

theorem onSettled_failed (s : State) (a : Arrival) :
    (onSettled s a).stats.failed =
      s.stats.failed + (if a.outcome.status = "error" then 1 else 0) := by
  unfold onSettled Arrival.outcome
  cases a.promise with
  | ok result => by_cases h : result.status = "error" <;> simp [countResult, h]
  | error err => simp [countRejection, errorResult]

theorem onSettled_frame (s : State) (a : Arrival) :
    (onSettled s a).stats.total = s.stats.total ∧
    (onSettled s a).stats.startTime = s.stats.startTime ∧
    (onSettled s a).stats.endTime = s.stats.endTime := by
  unfold onSettled
  cases a.promise <;> exact ⟨rfl, rfl, rfl⟩

theorem applyArrivals_results (s : State) (arrivals : List Arrival) :
    (applyArrivals s arrivals).results = s.results ++ arrivals.map Arrival.outcome := by
  induction arrivals generalizing s with
  | nil => simp [applyArrivals]
  | cons a rest ih =>
    have h := ih (onSettled s a)
    simp only [applyArrivals, List.foldl_cons] at h ⊢
    rw [h, onSettled_results]
    simp

theorem applyArrivals_stats (s : State) (arrivals : List Arrival) :
    (applyArrivals s arrivals).stats =
      { total := s.stats.total,
        completed := s.stats.completed + arrivals.length,
        success := s.stats.success +
          arrivals.countP (fun a => decide (a.outcome.status = "success")),
        failed := s.stats.failed +
          arrivals.countP (fun a => decide (a.outcome.status = "error")),
        startTime := s.stats.startTime,
        endTime := s.stats.endTime } := by
  induction arrivals generalizing s with
  | nil => simp [applyArrivals]
  | cons a rest ih =>
    have h := ih (onSettled s a)
    simp only [applyArrivals, List.foldl_cons] at h ⊢
    rw [h, onSettled_completed, onSettled_success, onSettled_failed,
      (onSettled_frame s a).1, (onSettled_frame s a).2.1, (onSettled_frame s a).2.2]
    simp only [List.countP_cons, List.length_cons, decide_eq_true_eq]
    congr 1 <;> omega

theorem countP_success_add_error (arrivals : List Arrival)
    (hstatus : ∀ a ∈ arrivals, a.outcome.status = "success" ∨ a.outcome.status = "error") :
    arrivals.countP (fun a => decide (a.outcome.status = "success")) +
      arrivals.countP (fun a => decide (a.outcome.status = "error")) = arrivals.length := by
  induction arrivals with
  | nil => simp
  | cons a rest ih =>
    have hrest := ih (fun b hb => hstatus b (List.mem_cons_of_mem a hb))
    simp only [List.countP_cons, List.length_cons, decide_eq_true_eq]
    rcases hstatus a (List.mem_cons_self a rest) with h | h
    · have hne : ¬ ("success" : String) = "error" := by decide
      rw [h, if_pos rfl, if_neg hne]
      omega
    · have hne : ¬ ("error" : String) = "success" := by decide
      rw [h, if_neg hne, if_pos rfl]
      omega

/-! ## Claims -/

/-- C1. No lost or double-counted updates: from the run-start state, any list of
arrivals whose outcomes have status 'success' or 'error', handled one at a time by
the per-outcome updaters of `startLoadTest`, leaves `completed` = the number of
arrivals, `success` / `failed` = the number of outcomes with that status, and
`results` = exactly those outcomes; `success + failed = completed`; when all
`requestCount` have arrived `completed = total`; and every permutation of the
arrivals gives the same stats and the same outcomes. -/
theorem no_lost_updates (requestCount : Nat) (startTime : Int) (prev : State)
    (arrivals : List Arrival)
    (hstatus : ∀ a ∈ arrivals, a.outcome.status = "success" ∨ a.outcome.status = "error") :
    (applyArrivals (runStart requestCount startTime prev) arrivals).stats.completed
        = arrivals.length ∧
    (applyArrivals (runStart requestCount startTime prev) arrivals).stats.success
        = arrivals.countP (fun a => decide (a.outcome.status = "success")) ∧
    (applyArrivals (runStart requestCount startTime prev) arrivals).stats.failed
        = arrivals.countP (fun a => decide (a.outcome.status = "error")) ∧
    (applyArrivals (runStart requestCount startTime prev) arrivals).results
        = arrivals.map Arrival.outcome ∧
    (applyArrivals (runStart requestCount startTime prev) arrivals).stats.success
        + (applyArrivals (runStart requestCount startTime prev) arrivals).stats.failed
        = (applyArrivals (runStart requestCount startTime prev) arrivals).stats.completed ∧
    (arrivals.length = requestCount →
      (applyArrivals (runStart requestCount startTime prev) arrivals).stats.completed
        = (applyArrivals (runStart requestCount startTime prev) arrivals).stats.total) ∧
    (∀ arrivals' : List Arrival, arrivals'.Perm arrivals →
      (applyArrivals (runStart requestCount startTime prev) arrivals').stats
        = (applyArrivals (runStart requestCount startTime prev) arrivals).stats ∧
      (applyArrivals (runStart requestCount startTime prev) arrivals').results.Perm
        (applyArrivals (runStart requestCount startTime prev) arrivals).results) := by
  have hsum := countP_success_add_error arrivals hstatus
  refine ⟨?_, ?_, ?_, ?_, ?_, ?_, ?_⟩
  · simp [applyArrivals_stats, runStart, clearResults]
  · simp [applyArrivals_stats, runStart, clearResults]
  · simp [applyArrivals_stats, runStart, clearResults]
  · simp [applyArrivals_results, runStart, clearResults]
  · simp only [applyArrivals_stats, runStart, clearResults]
    omega
  · intro hlen
    simp [applyArrivals_stats, runStart, clearResults, hlen]
  · intro arrivals' hperm
    constructor
    · simp only [applyArrivals_stats, hperm.length_eq, hperm.countP_eq]
    · simp only [applyArrivals_results]
      exact (hperm.map Arrival.outcome).append_left _

theorem tenArrivals_status :
    ∀ a ∈ tenArrivals, a.outcome.status = "success" ∨ a.outcome.status = "error" := by
  intro a ha
  simp only [tenArrivals, List.mem_cons, List.mem_singleton, List.not_mem_nil, or_false] at ha
  rcases ha with h | h | h | h | h | h | h | h | h | h <;> subst h <;>
    simp [sampleArrival, Arrival.outcome]

/-- C1 at the example of the specification: 5 successes and 5 errors give
completed = 10, success = 5, failed = 5. -/
theorem no_lost_updates_witness :
    (applyArrivals (runStart 10 1000 idleState) tenArrivals).stats.completed
        = 10 ∧
    (applyArrivals (runStart 10 1000 idleState) tenArrivals).stats.success
        = 5 ∧
    (applyArrivals (runStart 10 1000 idleState) tenArrivals).stats.failed
        = 5 ∧
    (applyArrivals (runStart 10 1000 idleState) tenArrivals).stats.total
        = 10 := by
  have h := no_lost_updates 10 1000 idleState tenArrivals
    tenArrivals_status
  refine ⟨h.1.trans rfl, h.2.1.trans ?_, h.2.2.1.trans ?_, ?_⟩
  · decide
  · decide
  · rfl

/-! ## Lemmas on `sendSingleRequest` -/

theorem sendSingleRequest_of_throw (env : RequestEnv) (requestId : Nat) (err : JSError)
    (h : sendSingleRequest.tryBlock env requestId = .error err) :
    sendSingleRequest env requestId =
      .ok { id := requestId, status := "error",
            duration := env.catchEndTime - env.startTime,
            timestamp := env.catchTimestamp, error := some err.message,
            data := JSONValue.null } := by
  unfold sendSingleRequest
  rw [h]

theorem sendSingleRequest_of_return (env : RequestEnv) (requestId : Nat) (o : Outcome)
    (h : sendSingleRequest.tryBlock env requestId = .ok o) :
    sendSingleRequest env requestId = .ok o := by
  unfold sendSingleRequest
  rw [h]

theorem tryBlock_fetch_rejects (env : RequestEnv) (requestId : Nat) (err : JSError)
    (h : env.fetch = .error err) :
    sendSingleRequest.tryBlock env requestId = .error err := by
  unfold sendSingleRequest.tryBlock
  rw [h]

theorem tryBlock_text (env : RequestEnv) (requestId : Nat) (response : Response)
    (h : env.fetch = .ok response) (hok : response.ok = false) :
    sendSingleRequest.tryBlock env requestId =
      match response.text with
      | .error err => .error err
      | .ok errorText =>
        .ok { id := requestId, status := "error", duration := env.endTime - env.startTime,
              timestamp := env.timestamp,
              error := some (errorTextOrStatus errorText response.status),
              data := JSONValue.null } := by
  unfold sendSingleRequest.tryBlock
  rw [h]
  simp only [hok, Bool.not_false, if_true]

theorem tryBlock_json (env : RequestEnv) (requestId : Nat) (response : Response)
    (h : env.fetch = .ok response) (hok : response.ok = true) :
    sendSingleRequest.tryBlock env requestId =
      match response.json with
      | .error err => .error err
      | .ok data =>
        .ok { id := requestId, status := "success", duration := env.endTime - env.startTime,
              timestamp := env.timestamp, error := none, data := data } := by
  unfold sendSingleRequest.tryBlock
  rw [h]
  simp only [hok, Bool.not_true, Bool.false_eq_true, if_false]

/-- Every call of `sendSingleRequest` fulfils with an outcome that carries the
request id and status 'success' or 'error', populated as the status says except
that `data` is whatever the body parsed to. -/
theorem sendSingleRequest_cases (env : RequestEnv) (requestId : Nat) :
    ∃ o, sendSingleRequest env requestId = .ok o ∧ o.id = requestId ∧
      ((o.status = "error" ∧ o.error ≠ none ∧ o.data = JSONValue.null) ∨
       (o.status = "success" ∧ o.error = none ∧
          ∃ response, env.fetch = .ok response ∧ response.ok = true ∧
            response.json = .ok o.data)) := by
  cases hf : env.fetch with
  | error err =>
    exact ⟨_, sendSingleRequest_of_throw env requestId err
      (tryBlock_fetch_rejects env requestId err hf), rfl, Or.inl ⟨rfl, by simp, rfl⟩⟩
  | ok response =>
    cases hok : response.ok with
    | false =>
      have ht := tryBlock_text env requestId response hf hok
      cases htext : response.text with
      | error err =>
        rw [htext] at ht
        exact ⟨_, sendSingleRequest_of_throw env requestId err ht, rfl,
          Or.inl ⟨rfl, by simp, rfl⟩⟩
      | ok errorText =>
        rw [htext] at ht
        exact ⟨_, sendSingleRequest_of_return env requestId _ ht, rfl,
          Or.inl ⟨rfl, by simp, rfl⟩⟩
    | true =>
      have hj := tryBlock_json env requestId response hf hok
      cases hjson : response.json with
      | error err =>
        rw [hjson] at hj
        exact ⟨_, sendSingleRequest_of_throw env requestId err hj, rfl,
          Or.inl ⟨rfl, by simp, rfl⟩⟩
      | ok data =>
        rw [hjson] at hj
        exact ⟨_, sendSingleRequest_of_return env requestId _ hj, rfl,
          Or.inr ⟨rfl, rfl, response, rfl, hok, hjson⟩⟩

/-- C3. The function `sendSingleRequest` never fails past its boundary: for every
request id and every behaviour of the request it fulfils with exactly one outcome
(it never rejects), and whenever a step throws an error `err` (the fetch rejects,
reading the error body of a non-success response throws, or the JSON parse of a
success response throws) the outcome has id = requestId, status = 'error',
error = `err.message` and data = null. -/
theorem sendSingleRequest_never_throws (env : RequestEnv) (requestId : Nat) :
    (∃ o, sendSingleRequest env requestId = .ok o ∧
        ∀ o', sendSingleRequest env requestId = .ok o' → o' = o) ∧
    (∀ err, sendSingleRequest env requestId ≠ .error err) ∧
    (∀ err, env.fetch = .error err →
      ∃ o, sendSingleRequest env requestId = .ok o ∧ o.id = requestId ∧
        o.status = "error" ∧ o.error = some err.message ∧ o.data = JSONValue.null) ∧
    (∀ response err, env.fetch = .ok response → response.ok = false →
      response.text = .error err →
      ∃ o, sendSingleRequest env requestId = .ok o ∧ o.id = requestId ∧
        o.status = "error" ∧ o.error = some err.message ∧ o.data = JSONValue.null) ∧
    (∀ response err, env.fetch = .ok response → response.ok = true →
      response.json = .error err →
      ∃ o, sendSingleRequest env requestId = .ok o ∧ o.id = requestId ∧
        o.status = "error" ∧ o.error = some err.message ∧ o.data = JSONValue.null) := by
  obtain ⟨o, ho, _⟩ := sendSingleRequest_cases env requestId
  refine ⟨⟨o, ho, ?_⟩, ?_, ?_, ?_, ?_⟩
  · intro o' ho'
    rw [ho] at ho'
    exact (Except.ok.inj ho').symm
  · intro err herr
    rw [ho] at herr
    cases herr
  · intro err hf
    exact ⟨_, sendSingleRequest_of_throw env requestId err
      (tryBlock_fetch_rejects env requestId err hf), rfl, rfl, rfl, rfl⟩
  · intro response err hf hok htext
    have ht := tryBlock_text env requestId response hf hok
    rw [htext] at ht
    exact ⟨_, sendSingleRequest_of_throw env requestId err ht, rfl, rfl, rfl, rfl⟩
  · intro response err hf hok hjson
    have hj := tryBlock_json env requestId response hf hok
    rw [hjson] at hj
    exact ⟨_, sendSingleRequest_of_throw env requestId err hj, rfl, rfl, rfl, rfl⟩

/-- C3 at a 200 response whose body is not JSON: request 3 fulfils with an error
outcome carrying the parse diagnostic. -/
theorem sendSingleRequest_never_throws_witness :
    ∃ o, sendSingleRequest badJsonEnv 3 = .ok o ∧ o.id = 3 ∧ o.status = "error" ∧
      o.error = some "Unexpected token <" ∧ o.data = JSONValue.null :=
  (sendSingleRequest_never_throws badJsonEnv 3).2.2.2.2
    { status := 200, text := .ok "<html>", json := .error ⟨"Unexpected token <"⟩ }
    ⟨"Unexpected token <"⟩ rfl (by decide) rfl

/-- C4. Classification of a received response by `sendSingleRequest`: a response
with a non-success status `s` and body text `b` gives status 'error' with
error = `b` when `b` is non-empty and error = "HTTP " followed by `s` otherwise; a
response with a success status whose body parses to `v` gives status 'success'
and data = `v`. -/
theorem sendSingleRequest_classifies (env : RequestEnv) (requestId : Nat)
    (response : Response) (hfetch : env.fetch = .ok response) :
    (∀ b, response.ok = false → response.text = .ok b →
      ∃ o, sendSingleRequest env requestId = .ok o ∧ o.status = "error" ∧
        (b ≠ "" → o.error = some b) ∧
        (b = "" → o.error = some ("HTTP " ++ toString response.status))) ∧
    (∀ v, response.ok = true → response.json = .ok v →
      ∃ o, sendSingleRequest env requestId = .ok o ∧ o.status = "success" ∧
        o.data = v) := by
  constructor
  · intro b hok htext
    have ht := tryBlock_text env requestId response hfetch hok
    rw [htext] at ht
    refine ⟨_, sendSingleRequest_of_return env requestId _ ht, rfl, ?_, ?_⟩
    · intro hb
      simp [errorTextOrStatus, hb]
    · intro hb
      simp [errorTextOrStatus, hb]
  · intro v hok hjson
    have hj := tryBlock_json env requestId response hfetch hok
    rw [hjson] at hj
    exact ⟨_, sendSingleRequest_of_return env requestId _ hj, rfl, rfl⟩

/-- C4 at the scenario of the specification: status 500 with body "overloaded"
gives status 'error' and error = "overloaded". -/
theorem sendSingleRequest_classifies_witness :
    ∃ o, sendSingleRequest (serverErrorEnv "overloaded") 1 = .ok o ∧ o.status = "error" ∧
      ("overloaded" ≠ "" → o.error = some "overloaded") ∧
      ("overloaded" = "" → o.error = some ("HTTP " ++ toString 500)) :=
  (sendSingleRequest_classifies (serverErrorEnv "overloaded") 1
    { status := 500, text := .ok "overloaded", json := .error ⟨"Unexpected token o"⟩ }
    rfl).1 "overloaded" (by decide) rfl

/-- C5, as stated, fails: a 200 response whose body is the JSON text `null` gives
an outcome with status 'success' whose `data` is null, so neither `error` nor
`data` is populated. -/
theorem outcome_shape_fails_on_null_body :
    ∃ o, sendSingleRequest (successEnv JSONValue.null) 1 = .ok o ∧
      o.status = "success" ∧ o.error = none ∧ o.data = JSONValue.null :=
  ⟨_, rfl, rfl, rfl, rfl⟩

/-- C5, amended. Every outcome returned by `sendSingleRequest`, and every outcome
built in the `catch` branch of `startLoadTest`, has status 'success' or 'error';
status 'error' implies `error` is populated (non-null, possibly the empty string)
and `data` is null; status 'success' implies `error` is null and `data` is exactly
the value the response body parsed to, hence populated exactly when that value
is not JSON null. -/
theorem outcome_shape (env : RequestEnv) (requestId : Nat) (o : Outcome)
    (h : sendSingleRequest env requestId = .ok o) :
    (o.status = "success" ∨ o.status = "error") ∧
    (o.status = "error" → o.error ≠ none ∧ o.data = JSONValue.null) ∧
    (o.status = "success" → o.error = none ∧
      ∃ response, env.fetch = .ok response ∧ response.ok = true ∧
        response.json = .ok o.data) ∧
    (∀ index timestamp err,
      (errorResult index timestamp err).status = "error" ∧
      (errorResult index timestamp err).error = some err.message ∧
      (errorResult index timestamp err).data = JSONValue.null) := by
  obtain ⟨o', ho', _, hshape⟩ := sendSingleRequest_cases env requestId
  rw [h] at ho'
  have heq : o = o' := Except.ok.inj ho'
  subst heq
  have hne : ¬ ("error" : String) = "success" := by decide
  have hne' : ¬ ("success" : String) = "error" := by decide
  refine ⟨?_, ?_, ?_, fun _ _ _ => ⟨rfl, rfl, rfl⟩⟩
  · rcases hshape with h1 | h1
    · exact Or.inr h1.1
    · exact Or.inl h1.1
  · intro hs
    rcases hshape with h1 | h1
    · exact ⟨h1.2.1, h1.2.2⟩
    · exact absurd (h1.1.symm.trans hs) hne'
  · intro hs
    rcases hshape with h1 | h1
    · exact absurd (h1.1.symm.trans hs) hne
    · exact ⟨h1.2.1, h1.2.2⟩

/-- C5 amended, at a failure whose message is empty: the outcome has status
'error', `error` is the (non-null) empty string and `data` is null. -/
theorem outcome_shape_witness :
    sendSingleRequest
        { startTime := 1000, fetch := .error ⟨""⟩, endTime := 1004, timestamp := "12:00:01",
          catchEndTime := 1005, catchTimestamp := "12:00:02" } 2
      = .ok ⟨2, "error", 5, "12:00:02", some "", JSONValue.null⟩ ∧
    (⟨2, "error", 5, "12:00:02", some "", JSONValue.null⟩ : Outcome).error ≠ none ∧
    (⟨2, "error", 5, "12:00:02", some "", JSONValue.null⟩ : Outcome).data
      = JSONValue.null :=
  ⟨rfl,
   (outcome_shape
    { startTime := 1000, fetch := .error ⟨""⟩, endTime := 1004, timestamp := "12:00:01",
      catchEndTime := 1005, catchTimestamp := "12:00:02" }
    2 ⟨2, "error", 5, "12:00:02", some "", JSONValue.null⟩ rfl).2.1 rfl⟩

/-! ## Lemmas on the dispatch loop -/

theorem pushPromises_eq {α : Type} (send : Nat → α) (requestCount : Nat) :
    ∀ (k i : Nat) (promises : List α), requestCount + 1 - i = k →
      pushPromises send requestCount i promises
        = promises ++ (List.range' i k).map send := by
  intro k
  induction k with
  | zero =>
    intro i promises hk
    unfold pushPromises
    have hgt : ¬ i ≤ requestCount := by omega
    simp [hgt]
  | succ k ih =>
    intro i promises hk
    unfold pushPromises
    have hle : i ≤ requestCount := by omega
    rw [if_pos hle, ih (i + 1) (promises ++ [send i]) (by omega), List.range'_succ]
    simp

theorem dispatch_eq (world : Nat → RequestEnv) (requestCount : Nat) :
    dispatch world requestCount
      = (List.range' 1 requestCount).map (fun i => sendSingleRequest (world i) i) := by
  unfold dispatch
  rw [pushPromises_eq _ requestCount requestCount 1 [] (by omega)]
  simp

theorem dispatch_length (world : Nat → RequestEnv) (requestCount : Nat) :
    (dispatch world requestCount).length = requestCount := by
  simp [dispatch_eq]

theorem dispatch_getElem? (world : Nat → RequestEnv) (requestCount index : Nat)
    (promise : Except JSError Outcome)
    (h : (dispatch world requestCount)[index]? = some promise) :
    index < requestCount ∧
      promise = sendSingleRequest (world (index + 1)) (index + 1) := by
  rw [dispatch_eq, List.getElem?_map] at h
  have hlt : index < requestCount := by
    by_contra hge
    rw [List.getElem?_eq_none (by simp; omega)] at h
    cases h
  refine ⟨hlt, ?_⟩
  rw [List.getElem?_range' 1 1 hlt] at h
  simp only [Option.map_some', Option.some.injEq, Nat.one_mul] at h
  rw [← h, Nat.add_comm 1 index]

/-- Every promise of the dispatch fulfils with an outcome that carries the id
given at dispatch (index + 1) and status 'success' or 'error'. -/
theorem dispatch_good (world : Nat → RequestEnv) (requestCount index : Nat)
    (promise : Except JSError Outcome)
    (h : (dispatch world requestCount)[index]? = some promise) :
    ∃ o, promise = .ok o ∧ o.id = index + 1 ∧
      (o.status = "success" ∨ o.status = "error") := by
  obtain ⟨_, hp⟩ := dispatch_getElem? world requestCount index promise h
  obtain ⟨o, ho, hid, hshape⟩ := sendSingleRequest_cases (world (index + 1)) (index + 1)
  refine ⟨o, hp.trans ho, hid, ?_⟩
  rcases hshape with h1 | h1
  · exact Or.inr h1.1
  · exact Or.inl h1.1

/-! ## Lemmas on the run -/

theorem step_settle (promises : List (Except JSError Outcome)) (s s' : RunState)
    (index : Nat) (timestamp : String)
    (h : step promises s (.settle index timestamp) = some s') :
    ∃ promise, promises[index]? = some promise ∧ index ∉ s.settled ∧
      s' = { state := onSettled s.state ⟨promise, index, timestamp⟩,
             settled := s.settled ++ [index],
             finished := s.finished } := by
  unfold step at h
  cases hp : promises[index]? with
  | none => simp [hp] at h
  | some promise =>
    simp only [hp] at h
    by_cases hmem : index ∈ s.settled
    · simp [hmem] at h
    · rw [if_neg hmem] at h
      exact ⟨promise, rfl, hmem, (Option.some.inj h).symm⟩

theorem step_allSettled (promises : List (Except JSError Outcome)) (s s' : RunState)
    (endTime : Int) (h : step promises s (.allSettled endTime) = some s') :
    s.finished = false ∧ (∀ i, i < promises.length → i ∈ s.settled) ∧
      s' = { state := { s.state with stats := setEndTime endTime s.state.stats },
             settled := s.settled,
             finished := true } := by
  by_cases hc : s.finished = false ∧ ∀ i ∈ List.range promises.length, i ∈ s.settled
  all_goals simp only [step] at h
  · rw [if_pos hc] at h
    exact ⟨hc.1, fun i hi => hc.2 i (List.mem_range.mpr hi), (Option.some.inj h).symm⟩
  · rw [if_neg hc] at h
    cases h

theorem step_allSettled_enabled (promises : List (Except JSError Outcome)) (s : RunState)
    (endTime : Int) (hf : s.finished = false)
    (hall : ∀ i, i < promises.length → i ∈ s.settled) :
    step promises s (.allSettled endTime)
      = some { state := { s.state with stats := setEndTime endTime s.state.stats },
               settled := s.settled,
               finished := true } := by
  simp only [step]
  rw [if_pos ⟨hf, fun i hi => hall i (List.mem_range.mp hi)⟩]

theorem runEvents_append (promises : List (Except JSError Outcome)) (s : RunState)
    (xs ys : List Event) :
    runEvents promises s (xs ++ ys)
      = (runEvents promises s xs).bind (fun s' => runEvents promises s' ys) := by
  induction xs generalizing s with
  | nil => rfl
  | cons e es ih =>
    simp only [List.cons_append, runEvents]
    cases step promises s e with
    | none => rfl
    | some s1 => exact ih s1

/-- Once the code after `Promise.all` has run, no further event is possible. -/
theorem step_finished (promises : List (Except JSError Outcome)) (n : Nat) (s : RunState)
    (hinv : RunInvariant promises n s) (hf : s.finished = true) (e : Event) :
    step promises s e = none := by
  cases hstep : step promises s e with
  | none => rfl
  | some s' =>
    cases e with
    | settle index timestamp =>
      obtain ⟨promise, hp, hmem, _⟩ := step_settle promises s s' index timestamp hstep
      obtain ⟨hlt, _⟩ := List.getElem?_eq_some.mp hp
      exact absurd (hinv.finished_all hf index hlt) hmem
    | allSettled endTime =>
      obtain ⟨hnf, _⟩ := step_allSettled promises s s' endTime hstep
      rw [hf] at hnf
      cases hnf

theorem runEvents_finished (promises : List (Except JSError Outcome)) (n : Nat)
    (s s' : RunState) (hinv : RunInvariant promises n s) (hf : s.finished = true)
    (events : List Event) (h : runEvents promises s events = some s') :
    events = [] ∧ s' = s := by
  cases events with
  | nil => exact ⟨rfl, (Option.some.inj h).symm⟩
  | cons e es =>
    simp only [runEvents, step_finished promises n s hinv hf e] at h
    cases h

theorem init_invariant (promises : List (Except JSError Outcome)) (requestCount : Nat)
    (startTime : Int) (prev : State) :
    RunInvariant promises requestCount (startLoadTest.init requestCount startTime prev) where
  settled_nodup := List.nodup_nil
  settled_lt := by intro i hi; cases hi
  completed_eq := rfl
  conservation := rfl
  total_eq := rfl
  ids_eq := rfl
  endTime_iff := by simp [startLoadTest.init, runStart, clearResults]
  finished_all := by intro h; cases h

theorem step_invariant (promises : List (Except JSError Outcome)) (n : Nat)
    (hgood : ∀ index promise, promises[index]? = some promise →
      ∃ o, promise = .ok o ∧ o.id = index + 1 ∧
        (o.status = "success" ∨ o.status = "error"))
    (s s' : RunState) (e : Event) (hinv : RunInvariant promises n s)
    (hstep : step promises s e = some s') : RunInvariant promises n s' := by
  cases e with
  | settle index timestamp =>
    obtain ⟨promise, hp, hmem, hs'⟩ := step_settle promises s s' index timestamp hstep
    obtain ⟨o, ho, hid, hstatus⟩ := hgood index promise hp
    obtain ⟨hlt, _⟩ := List.getElem?_eq_some.mp hp
    have hout : (⟨promise, index, timestamp⟩ : Arrival).outcome = o := by
      simp [Arrival.outcome, ho]
    have hne : ¬ ("success" : String) = "error" := by decide
    have hne' : ¬ ("error" : String) = "success" := by decide
    subst hs'
    refine ⟨?_, ?_, ?_, ?_, ?_, ?_, ?_, ?_⟩
    · exact List.Nodup.append hinv.settled_nodup (List.nodup_singleton index)
        (by simpa using hmem)
    · intro i hi
      rcases List.mem_append.mp hi with h1 | h1
      · exact hinv.settled_lt i h1
      · rw [List.mem_singleton.mp h1]; exact hlt
    · simp only [onSettled_completed, List.length_append, List.length_singleton,
        hinv.completed_eq]
    · simp only [onSettled_completed, onSettled_success, onSettled_failed, hout]
      have hc := hinv.conservation
      rcases hstatus with h1 | h1
      · rw [h1, if_pos rfl, if_neg hne]; omega
      · rw [h1, if_neg hne', if_pos rfl]; omega
    · rw [(onSettled_frame _ _).1]; exact hinv.total_eq
    · simp only [onSettled_results, hout, List.map_append, List.map_cons, List.map_nil,
        hinv.ids_eq, hid]
    · rw [(onSettled_frame _ _).2.2]; exact hinv.endTime_iff
    · exact fun hf i hi => List.mem_append_left _ (hinv.finished_all hf i hi)
  | allSettled endTime =>
    obtain ⟨hnf, hall, hs'⟩ := step_allSettled promises s s' endTime hstep
    subst hs'
    exact ⟨hinv.settled_nodup, hinv.settled_lt, hinv.completed_eq, hinv.conservation,
      hinv.total_eq, hinv.ids_eq, by simp [setEndTime], fun _ => hall⟩

theorem runEvents_invariant (promises : List (Except JSError Outcome)) (n : Nat)
    (hgood : ∀ index promise, promises[index]? = some promise →
      ∃ o, promise = .ok o ∧ o.id = index + 1 ∧
        (o.status = "success" ∨ o.status = "error"))
    (events : List Event) (s s' : RunState) (hinv : RunInvariant promises n s)
    (h : runEvents promises s events = some s') : RunInvariant promises n s' := by
  induction events generalizing s with
  | nil => rw [← Option.some.inj h]; exact hinv
  | cons e es ih =>
    simp only [runEvents] at h
    cases hstep : step promises s e with
    | none => simp [hstep] at h
    | some s1 =>
      simp only [hstep] at h
      exact ih s1 (step_invariant promises n hgood s s1 e hinv hstep) h

/-- Every point of a run of `startLoadTest` satisfies the run invariant. -/
theorem startLoadTest_invariant (world : Nat → RequestEnv) (requestCount : Nat)
    (startTime : Int) (prev : State) (events : List Event) (s : RunState)
    (h : startLoadTest world requestCount startTime prev events = some s) :
    RunInvariant (dispatch world requestCount) requestCount s :=
  runEvents_invariant _ requestCount (dispatch_good world requestCount) events _ s
    (init_invariant _ requestCount startTime prev) h

/-- The number of settled indices never exceeds the number of promises. -/
theorem settled_length_le (promises : List (Except JSError Outcome)) (n : Nat)
    (s : RunState) (hinv : RunInvariant promises n s) :
    s.settled.length ≤ promises.length := by
  have hsub : s.settled ⊆ List.range promises.length :=
    fun i hi => List.mem_range.mpr (hinv.settled_lt i hi)
  have := (List.subperm_of_subset hinv.settled_nodup hsub).length_le
  simpa using this

/-- When every index has settled, the settled indices are a permutation of
`0 .. promises.length - 1`. -/
theorem settled_perm_range (promises : List (Except JSError Outcome)) (n : Nat)
    (s : RunState) (hinv : RunInvariant promises n s)
    (hall : ∀ i, i < promises.length → i ∈ s.settled) :
    s.settled.Perm (List.range promises.length) :=
  (List.perm_ext_iff_of_nodup hinv.settled_nodup (List.nodup_range _)).mpr
    (fun i => ⟨fun hi => List.mem_range.mpr (hinv.settled_lt i hi),
      fun hi => hall i (List.mem_range.mp hi)⟩)

/-- The final `endTime` update occurs once in a history when the run has finished
and not at all otherwise. -/
theorem runEvents_count (promises : List (Except JSError Outcome)) (n : Nat)
    (hgood : ∀ index promise, promises[index]? = some promise →
      ∃ o, promise = .ok o ∧ o.id = index + 1 ∧
        (o.status = "success" ∨ o.status = "error"))
    (events : List Event) (s s' : RunState) (hinv : RunInvariant promises n s)
    (hf : s.finished = false) (h : runEvents promises s events = some s') :
    events.countP Event.isAllSettled = if s'.finished = true then 1 else 0 := by
  induction events generalizing s with
  | nil =>
    rw [← Option.some.inj h, hf]
    simp
  | cons e es ih =>
    simp only [runEvents] at h
    cases hstep : step promises s e with
    | none => simp [hstep] at h
    | some s1 =>
      simp only [hstep] at h
      have hinv1 := step_invariant promises n hgood s s1 e hinv hstep
      cases e with
      | settle index timestamp =>
        obtain ⟨promise, _, _, hs1⟩ := step_settle promises s s1 index timestamp hstep
        have hf1 : s1.finished = false := by rw [hs1]; exact hf
        rw [List.countP_cons_of_neg]
        · exact ih s1 hinv1 hf1 h
        · simp [Event.isAllSettled]
      | allSettled endTime =>
        obtain ⟨_, _, hs1⟩ := step_allSettled promises s s1 endTime hstep
        have hf1 : s1.finished = true := by rw [hs1]
        obtain ⟨hes, hs'⟩ := runEvents_finished promises n s1 s' hinv1 hf1 es h
        rw [hes, hs', hf1]
        simp [Event.isAllSettled]

theorem step_monotone (promises : List (Except JSError Outcome)) (s s' : RunState)
    (e : Event) (hstep : step promises s e = some s') :
    s.state.stats.completed ≤ s'.state.stats.completed ∧
    s.state.stats.success ≤ s'.state.stats.success ∧
    s.state.stats.failed ≤ s'.state.stats.failed := by
  cases e with
  | settle index timestamp =>
    obtain ⟨promise, _, _, hs'⟩ := step_settle promises s s' index timestamp hstep
    subst hs'
    simp only [onSettled_completed, onSettled_success, onSettled_failed]
    refine ⟨?_, ?_, ?_⟩ <;> omega
  | allSettled endTime =>
    obtain ⟨_, _, hs'⟩ := step_allSettled promises s s' endTime hstep
    subst hs'
    exact ⟨Nat.le_refl _, Nat.le_refl _, Nat.le_refl _⟩

/-- C2. Summary invariant: in every state reachable during one run of
`startLoadTest` with request count `n` (run start, then each dispatched attempt
delivering its outcome at most once, then the final `endTime` update),
`completed = success + failed`, `completed ≤ total` (and `total = n`), and no
event of the run decreases `completed`, `success` or `failed`. -/
theorem summary_invariant (world : Nat → RequestEnv) (n : Nat) (startTime : Int)
    (prev : State) (events : List Event) (s : RunState)
    (h : startLoadTest world n startTime prev events = some s) :
    s.state.stats.completed = s.state.stats.success + s.state.stats.failed ∧
    s.state.stats.completed ≤ s.state.stats.total ∧
    s.state.stats.total = n ∧
    (∀ e s', startLoadTest world n startTime prev (events ++ [e]) = some s' →
      s.state.stats.completed ≤ s'.state.stats.completed ∧
      s.state.stats.success ≤ s'.state.stats.success ∧
      s.state.stats.failed ≤ s'.state.stats.failed) := by
  have hinv := startLoadTest_invariant world n startTime prev events s h
  have hlen := settled_length_le _ n s hinv
  rw [dispatch_length] at hlen
  refine ⟨hinv.conservation, ?_, hinv.total_eq, ?_⟩
  · rw [hinv.total_eq, hinv.completed_eq]; exact hlen
  · intro e s' h'
    unfold startLoadTest at h h'
    rw [runEvents_append, h] at h'
    simp only [Option.bind, runEvents] at h'
    cases hstep : step (dispatch world n) s e with
    | none => simp [hstep] at h'
    | some s1 =>
      simp only [hstep] at h'
      rw [← Option.some.inj h']
      exact step_monotone _ s s1 e hstep

/-- A run with request count 3 in which request 2 (an error) and then request 1
(a success) have arrived. -/
theorem sample_run_two_of_three :
    startLoadTest sampleWorld 3 1000 idleState twoOfThreeEvents = some twoOfThreeState := by
  unfold startLoadTest
  rw [dispatch_eq]
  rfl

/-- C2 at a run with request count 3 after two arrivals, one error and one
success: the run reaches the state with completed = 2 = 1 + 1 ≤ 3 = total. -/
theorem summary_invariant_witness :
    startLoadTest sampleWorld 3 1000 idleState twoOfThreeEvents = some twoOfThreeState ∧
    twoOfThreeState.state.stats.completed
      = twoOfThreeState.state.stats.success + twoOfThreeState.state.stats.failed ∧
    twoOfThreeState.state.stats.completed ≤ twoOfThreeState.state.stats.total ∧
    twoOfThreeState.state.stats.completed = 2 :=
  ⟨sample_run_two_of_three,
   (summary_invariant sampleWorld 3 1000 idleState twoOfThreeEvents twoOfThreeState
      sample_run_two_of_three).1,
   (summary_invariant sampleWorld 3 1000 idleState twoOfThreeEvents twoOfThreeState
      sample_run_two_of_three).2.1,
   rfl⟩

/-- C6. The field `endTime` is set only at completion and only once: in every state
reachable during a run of `startLoadTest`, `endTime` is non-null only if
`completed = total`; the final update occurs at most once in the history, and
exactly once when `endTime` is set; wherever it occurs it is the last event, its
value is the one stored, and the state it was applied to had all `n` outcomes
accounted; while some attempt has not settled, `completed < total` and `endTime`
stays null; and once all have been accounted the update can take place. -/
theorem endTime_only_at_completion (world : Nat → RequestEnv) (n : Nat) (startTime : Int)
    (prev : State) (events : List Event) (s : RunState)
    (h : startLoadTest world n startTime prev events = some s) :
    (s.state.stats.endTime ≠ none → s.state.stats.completed = s.state.stats.total) ∧
    events.countP Event.isAllSettled ≤ 1 ∧
    (s.state.stats.endTime ≠ none ↔ events.countP Event.isAllSettled = 1) ∧
    (∀ pre endTime post, events = pre ++ Event.allSettled endTime :: post →
      post = [] ∧ s.state.stats.endTime = some endTime ∧
      ∃ s0, startLoadTest world n startTime prev pre = some s0 ∧
        s0.state.stats.completed = n ∧ s0.state.stats.endTime = none) ∧
    (∀ i, i < n → i ∉ s.settled →
      s.state.stats.completed < s.state.stats.total ∧ s.state.stats.endTime = none) ∧
    (s.state.stats.completed = s.state.stats.total → s.state.stats.endTime = none →
      ∀ endTime, ∃ s', startLoadTest world n startTime prev
          (events ++ [Event.allSettled endTime]) = some s' ∧
        s'.state.stats.endTime = some endTime ∧
        s'.state.stats.completed = s.state.stats.completed) := by
  have hinv := startLoadTest_invariant world n startTime prev events s h
  have hlen := dispatch_length world n
  have hcount := runEvents_count (dispatch world n) n (dispatch_good world n) events _ s
    (init_invariant _ n startTime prev) rfl h
  have hfin_full : s.finished = true → s.settled.length = n := by
    intro hf
    have hperm := settled_perm_range _ n s hinv (hinv.finished_all hf)
    rw [hperm.length_eq, List.length_range, hlen]
  have hnot_all : ∀ i, i < n → i ∉ s.settled → s.settled.length < n := by
    intro i hi hmem
    by_contra hge
    have hsub : s.settled ⊆ List.range (dispatch world n).length :=
      fun j hj => List.mem_range.mpr (hinv.settled_lt j hj)
    have hperm := (List.subperm_of_subset hinv.settled_nodup hsub).perm_of_length_le
      (by rw [List.length_range, hlen]; omega)
    exact hmem (hperm.mem_iff.mpr (List.mem_range.mpr (by rw [hlen]; exact hi)))
  refine ⟨?_, ?_, ?_, ?_, ?_, ?_⟩
  · intro hset
    rw [hinv.total_eq, hinv.completed_eq]
    exact hfin_full (hinv.endTime_iff.mp hset)
  · rw [hcount]; split <;> omega
  · rw [hcount, hinv.endTime_iff]
    constructor
    · intro hf; rw [if_pos hf]
    · intro hc
      by_contra hf
      rw [if_neg hf] at hc
      omega
  · intro pre endTime post hev
    subst hev
    unfold startLoadTest at h ⊢
    rw [runEvents_append] at h
    cases hpre : runEvents (dispatch world n) (startLoadTest.init n startTime prev) pre with
    | none => simp [hpre] at h
    | some s0 =>
      simp only [hpre, Option.bind, runEvents] at h
      have hinv0 := runEvents_invariant _ n (dispatch_good world n) pre _ s0
        (init_invariant _ n startTime prev) hpre
      cases hstep : step (dispatch world n) s0 (Event.allSettled endTime) with
      | none => simp [hstep] at h
      | some s1 =>
        simp only [hstep] at h
        obtain ⟨hf0, hall0, hs1⟩ := step_allSettled _ s0 s1 endTime hstep
        have hinv1 := step_invariant _ n (dispatch_good world n) s0 s1 _ hinv0 hstep
        have hf1 : s1.finished = true := by rw [hs1]
        obtain ⟨hpost, hs⟩ := runEvents_finished _ n s1 s hinv1 hf1 post h
        refine ⟨hpost, ?_, s0, rfl, ?_, ?_⟩
        · rw [hs, hs1]; rfl
        · have hperm := settled_perm_range _ n s0 hinv0 hall0
          rw [hinv0.completed_eq, hperm.length_eq, List.length_range, hlen]
        · by_contra hne
          have := hinv0.endTime_iff.mp hne
          rw [hf0] at this
          cases this
  · intro i hi hmem
    constructor
    · rw [hinv.total_eq, hinv.completed_eq]
      exact hnot_all i hi hmem
    · by_contra hne
      have hf := hinv.endTime_iff.mp hne
      have hall := hinv.finished_all hf i (by rw [hlen]; exact hi)
      exact hmem hall
  · intro hcomp hnone endTime
    have hf : s.finished = false := by
      cases hfin : s.finished with
      | false => rfl
      | true => exact absurd hnone (hinv.endTime_iff.mpr hfin)
    have hall : ∀ i, i < (dispatch world n).length → i ∈ s.settled := by
      intro i hi
      by_contra hmem
      have := hnot_all i (by rw [hlen] at hi; exact hi) hmem
      rw [hinv.total_eq, hinv.completed_eq] at hcomp
      omega
    refine ⟨{ state := { s.state with stats := setEndTime endTime s.state.stats },
              settled := s.settled, finished := true }, ?_, rfl, rfl⟩
    unfold startLoadTest at h ⊢
    rw [runEvents_append, h]
    simp only [Option.bind, runEvents, step_allSettled_enabled _ s endTime hf hall]

/-- C7. Id uniqueness: at every point of a run of `startLoadTest` with request
count `n`, the ids of the accumulated outcomes are, in arrival order, exactly
the dispatch ids (index + 1) of the attempts that have settled; they have no
duplicates and lie in 1..n; once every attempt has settled they are a
permutation of 1, ..., n; and on every path of `sendSingleRequest` and in the
`catch` branch of `startLoadTest` the outcome carries the id given at dispatch. -/
theorem ids_exactly_one_to_n (world : Nat → RequestEnv) (n : Nat) (startTime : Int)
    (prev : State) (events : List Event) (s : RunState)
    (h : startLoadTest world n startTime prev events = some s) :
    s.state.results.map (fun o => o.id) = s.settled.map (fun i => i + 1) ∧
    (s.state.results.map (fun o => o.id)).Nodup ∧
    (∀ id ∈ s.state.results.map (fun o => o.id), 1 ≤ id ∧ id ≤ n) ∧
    ((∀ i, i < n → i ∈ s.settled) →
      (s.state.results.map (fun o => o.id)).Perm (List.range' 1 n)) ∧
    (s.finished = true →
      (s.state.results.map (fun o => o.id)).Perm (List.range' 1 n)) ∧
    (∀ index promise, (dispatch world n)[index]? = some promise →
      ∃ o, promise = .ok o ∧ o.id = index + 1) ∧
    (∀ index timestamp err, (errorResult index timestamp err).id = index + 1) := by
  have hinv := startLoadTest_invariant world n startTime prev events s h
  have hlen := dispatch_length world n
  have hinj : Function.Injective (fun i : Nat => i + 1) := fun a b hab => by
    simpa using hab
  have hperm_of_all : (∀ i, i < n → i ∈ s.settled) →
      (s.state.results.map (fun o => o.id)).Perm (List.range' 1 n) := by
    intro hall
    have hperm := settled_perm_range _ n s hinv (fun i hi => hall i (by
      rw [hlen] at hi; exact hi))
    rw [hlen] at hperm
    rw [hinv.ids_eq]
    have hmap := hperm.map (fun i => i + 1)
    have hrange : (List.range n).map (fun i => i + 1) = List.range' 1 n := by
      rw [List.range'_eq_map_range]
      exact List.map_congr_left (fun i _ => Nat.add_comm i 1)
    rw [hrange] at hmap
    exact hmap
  refine ⟨hinv.ids_eq, ?_, ?_, hperm_of_all, ?_, ?_, fun _ _ _ => rfl⟩
  · rw [hinv.ids_eq]
    exact hinv.settled_nodup.map hinj
  · intro id hid
    rw [hinv.ids_eq] at hid
    obtain ⟨i, hi, rfl⟩ := List.mem_map.mp hid
    have := hinv.settled_lt i hi
    rw [hlen] at this
    omega
  · intro hf
    exact hperm_of_all (fun i hi => hinv.finished_all hf i (by rw [hlen]; exact hi))
  · intro index promise hp
    obtain ⟨o, ho, hid, _⟩ := dispatch_good world n index promise hp
    exact ⟨o, ho, hid⟩

/-- A run with request count 5 in which the attempt at index 1 never settles and
the other four, all successes, have arrived. -/
theorem sample_run_four_of_five :
    startLoadTest sampleWorld 5 1000 idleState fourOfFiveEvents = some fourOfFiveState := by
  unfold startLoadTest
  rw [dispatch_eq]
  rfl

/-- C6 at the scenario of the specification: n = 5 with four outcomes arrived and one
attempt that has not settled leaves completed = 4 < 5 = total and `endTime` null. -/
theorem endTime_only_at_completion_witness :
    startLoadTest sampleWorld 5 1000 idleState fourOfFiveEvents = some fourOfFiveState ∧
    fourOfFiveState.state.stats.completed = 4 ∧
    fourOfFiveState.state.stats.completed < fourOfFiveState.state.stats.total ∧
    fourOfFiveState.state.stats.endTime = none :=
  ⟨sample_run_four_of_five, rfl,
   (endTime_only_at_completion sampleWorld 5 1000 idleState fourOfFiveEvents
      fourOfFiveState sample_run_four_of_five).2.2.2.2.1 1 (by decide) (by decide)⟩

/-- A complete run with request count 3 whose attempts settle in the order 3, 1, 2. -/
theorem sample_run_complete :
    startLoadTest sampleWorld 3 1000 idleState completeEvents = some completeState := by
  unfold startLoadTest
  rw [dispatch_eq]
  rfl

/-- C7 at a complete run with request count 3 settling in the order 3, 1, 2: the ids
3, 1, 2 of the results are a permutation of 1, 2, 3. -/
theorem ids_exactly_one_to_n_witness :
    startLoadTest sampleWorld 3 1000 idleState completeEvents = some completeState ∧
    completeState.state.results.map (fun o => o.id) = [3, 1, 2] ∧
    (completeState.state.results.map (fun o => o.id)).Perm (List.range' 1 3) :=
  ⟨sample_run_complete, rfl,
   (ids_exactly_one_to_n sampleWorld 3 1000 idleState completeEvents completeState
      sample_run_complete).2.2.2.2.1 rfl⟩

/-! ## Lemmas on the results render -/

theorem sortInsert_perm {α : Type} (cmp : α → α → Int) (a : α) (l : List α) :
    (sortInsert cmp a l).Perm (a :: l) := by
  induction l with
  | nil => exact List.Perm.refl _
  | cons b rest ih =>
    unfold sortInsert
    split
    · exact List.Perm.refl _
    · exact (List.Perm.cons b ih).trans (List.Perm.swap a b rest)

theorem arraySort_perm {α : Type} (cmp : α → α → Int) (l : List α) :
    (arraySort cmp l).Perm l := by
  induction l with
  | nil => exact List.Perm.refl _
  | cons a rest ih =>
    unfold arraySort
    exact (sortInsert_perm cmp a _).trans (List.Perm.cons a ih)

theorem sortInsert_compareId_sorted (a : Outcome) (l : List Outcome)
    (hl : l.Pairwise (fun x y => x.id ≤ y.id)) :
    (sortInsert compareId a l).Pairwise (fun x y => x.id ≤ y.id) := by
  induction l with
  | nil => simp [sortInsert]
  | cons b rest ih =>
    have hb := List.pairwise_cons.mp hl
    unfold sortInsert
    split
    · rename_i hle
      have hab : a.id ≤ b.id := by
        unfold compareId at hle
        omega
      refine List.pairwise_cons.mpr ⟨?_, hl⟩
      intro y hy
      rcases List.mem_cons.mp hy with h1 | h1
      · rw [h1]; exact hab
      · exact Nat.le_trans hab (hb.1 y h1)
    · rename_i hgt
      have hba : b.id ≤ a.id := by
        unfold compareId at hgt
        omega
      refine List.pairwise_cons.mpr ⟨?_, ih hb.2⟩
      intro y hy
      rcases List.mem_cons.mp ((sortInsert_perm compareId a rest).mem_iff.mp hy) with h1 | h1
      · rw [h1]; exact hba
      · exact hb.1 y h1

theorem arraySort_compareId_sorted (l : List Outcome) :
    (arraySort compareId l).Pairwise (fun x y => x.id ≤ y.id) := by
  induction l with
  | nil => simp [arraySort]
  | cons a rest ih =>
    unfold arraySort
    exact sortInsert_compareId_sorted a _ ih

/-- The list the rows are rendered from is a permutation of the results collection
with ids in ascending order, whatever the arrival order. -/
theorem renderResults_displayed (results : List Outcome) :
    (renderResults results).displayed.Perm results ∧
    (renderResults results).displayed.Pairwise (fun x y => x.id ≤ y.id) :=
  ⟨arraySort_perm compareId results, arraySort_compareId_sorted results⟩

/-- C8, the code at the failing input: with request 2 stored before request 1, the
render shows the ids in the order 1, 2, and the stored results collection itself
is then in the order 1, 2 as well: the sort is applied in place to the state
array, so its storage order does not stay 2, 1. -/
theorem render_sorts_stored_results_in_place :
    outOfOrderResults.map (fun o => o.id) = [2, 1] ∧
    (renderResults outOfOrderResults).displayed.map (fun o => o.id) = [1, 2] ∧
    (renderResults outOfOrderResults).stored.map (fun o => o.id) = [1, 2] ∧
    (renderResults outOfOrderResults).stored ≠ outOfOrderResults := by
  refine ⟨rfl, rfl, rfl, ?_⟩
  intro h
  have hid := congrArg (List.map (fun o => o.id)) h
  revert hid
  decide

/-! ## Lemmas on the derived views -/

theorem foldl_duration (results : List Outcome) (init : Int) :
    results.foldl (fun sum r => sum + r.duration) init
      = init + (results.map (fun r => r.duration)).sum := by
  induction results generalizing init with
  | nil => simp
  | cons r rest ih =>
    simp only [List.foldl_cons, List.map_cons, List.sum_cons]
    rw [ih]
    omega

/-- C9, as stated, fails: for two outcomes with durations 1 and 2 the mean is 3/2
but `getAverageDuration` returns 2. -/
theorem average_is_not_the_mean :
    getAverageDuration outOfOrderResults = 2 ∧
    (((outOfOrderResults.map (fun r => r.duration)).sum : Int) : ℚ) / (outOfOrderResults.length : ℚ)
      = 3 / 2 ∧
    (getAverageDuration outOfOrderResults : ℚ) ≠
      (((outOfOrderResults.map (fun r => r.duration)).sum : Int) : ℚ)
        / (outOfOrderResults.length : ℚ) := by
  have h1 : getAverageDuration outOfOrderResults = 2 := by
    simp only [getAverageDuration, outOfOrderResults, sampleOutcome, mathRound,
      List.length_cons, List.length_nil, List.foldl_cons, List.foldl_nil]
    norm_num
  have h2 : (((outOfOrderResults.map (fun r => r.duration)).sum : Int) : ℚ)
      / (outOfOrderResults.length : ℚ) = 3 / 2 := by
    simp only [outOfOrderResults, sampleOutcome, List.map_cons, List.map_nil,
      List.sum_cons, List.sum_nil, List.length_cons, List.length_nil]
    norm_num
  refine ⟨h1, h2, ?_⟩
  rw [h1, h2]
  norm_num

/-- C9, amended. The function `getAverageDuration` returns 0 when the collection is
empty and otherwise the mean of the durations rounded to the nearest integer,
a half rounding up: the result `k` is the integer with
`mean - 1/2 < k ≤ mean + 1/2`; in particular it is the mean itself when the mean
is an integer. -/
theorem getAverageDuration_rounded_mean (results : List Outcome) :
    (results = [] → getAverageDuration results = 0) ∧
    (results ≠ [] →
      (((results.map (fun r => r.duration)).sum : Int) : ℚ) / (results.length : ℚ) - 1 / 2
          < (getAverageDuration results : ℚ) ∧
      (getAverageDuration results : ℚ)
          ≤ (((results.map (fun r => r.duration)).sum : Int) : ℚ) / (results.length : ℚ) + 1 / 2 ∧
      ∀ k : Int,
        (((results.map (fun r => r.duration)).sum : Int) : ℚ) / (results.length : ℚ) = (k : ℚ) →
        getAverageDuration results = k) := by
  constructor
  · intro h
    subst h
    rfl
  · intro hne
    have hlen : results.length ≠ 0 := fun h => hne (List.length_eq_zero.mp h)
    have hval : getAverageDuration results
        = ⌊(((results.map (fun r => r.duration)).sum : Int) : ℚ) / (results.length : ℚ) + 1 / 2⌋ := by
      unfold getAverageDuration mathRound
      rw [if_neg hlen, foldl_duration]
      simp
    rw [hval]
    refine ⟨?_, ?_, ?_⟩
    · have := Int.lt_floor_add_one
        ((((results.map (fun r => r.duration)).sum : Int) : ℚ) / (results.length : ℚ) + 1 / 2)
      linarith
    · exact Int.floor_le _
    · intro k hk
      rw [hk, Int.floor_eq_iff]
      constructor <;> norm_num

/-- C9 amended, at durations 1 and 2: the mean 3/2 is rounded up, and the result 2
lies within a half of it. -/
theorem getAverageDuration_rounded_mean_witness :
    (((outOfOrderResults.map (fun r => r.duration)).sum : Int) : ℚ)
        / (outOfOrderResults.length : ℚ) - 1 / 2
      < (getAverageDuration outOfOrderResults : ℚ) ∧
    (getAverageDuration outOfOrderResults : ℚ)
      ≤ (((outOfOrderResults.map (fun r => r.duration)).sum : Int) : ℚ)
        / (outOfOrderResults.length : ℚ) + 1 / 2 :=
  ⟨((getAverageDuration_rounded_mean outOfOrderResults).2 (by simp [outOfOrderResults])).1,
   ((getAverageDuration_rounded_mean outOfOrderResults).2 (by simp [outOfOrderResults])).2.1⟩

/-- The function `getTotalDuration` returns 0 while `endTime` is unset and
`endTime - startTime` when both timestamps are set and neither is 0. -/
theorem getTotalDuration_spec (stats : Stats) :
    (stats.endTime = none → getTotalDuration stats = 0) ∧
    (stats.startTime = none → getTotalDuration stats = 0) ∧
    (∀ startTime endTime, stats.startTime = some startTime → stats.endTime = some endTime →
      startTime ≠ 0 → endTime ≠ 0 → getTotalDuration stats = endTime - startTime) := by
  refine ⟨?_, ?_, ?_⟩
  · intro h
    simp [getTotalDuration, h, truthy]
  · intro h
    simp [getTotalDuration, h, truthy]
  · intro startTime endTime hs he hs0 he0
    simp [getTotalDuration, hs, he, truthy, toNumber, hs0, he0]

/-- C10, the code at the failing input: for a complete run started at timestamp 0
and finished at timestamp 1500, `getTotalDuration` returns 0, not
`endTime - startTime` = 1500. -/
theorem getTotalDuration_zero_start :
    epochStartStats.startTime = some 0 ∧ epochStartStats.endTime = some 1500 ∧
    getTotalDuration epochStartStats = 0 ∧
    getTotalDuration epochStartStats ≠ 1500 - 0 := by
  refine ⟨rfl, rfl, rfl, ?_⟩
  decide

/-! ## Run start and reset -/

/-- C11. Run start and reset leak no state: for every prior state, `clearResults`
yields results = [] and stats = {total 0, completed 0, success 0, failed 0,
startTime null, endTime null}, and the run-start step of `startLoadTest` with
request count `n` yields results = [] and stats = {total n, completed 0,
success 0, failed 0, startTime = now, endTime null}; neither depends on the prior
state, and so the whole run that follows is the same from every prior state. -/
theorem reset_leaks_no_state (prev : State) (n : Nat) (now : Int) :
    (clearResults prev).results = [] ∧
    (clearResults prev).stats
      = { total := 0, completed := 0, success := 0, failed := 0,
          startTime := none, endTime := none } ∧
    (runStart n now prev).results = [] ∧
    (runStart n now prev).stats
      = { total := n, completed := 0, success := 0, failed := 0,
          startTime := some now, endTime := none } ∧
    (∀ other : State, clearResults other = clearResults prev) ∧
    (∀ other : State, runStart n now other = runStart n now prev) ∧
    (∀ (other : State) (world : Nat → RequestEnv) (events : List Event),
      startLoadTest world n now other events = startLoadTest world n now prev events) := by
  refine ⟨rfl, rfl, rfl, rfl, fun _ => rfl, fun _ => rfl, fun _ _ _ => rfl⟩

/-- The reset and the run start applied to the state a complete run left behind
(three results, all counters set, both timestamps set). -/
theorem reset_after_complete_run :
    completeState.state.results.length = 3 ∧
    completeState.state.stats = ⟨3, 3, 2, 1, some 1000, some 1100⟩ ∧
    (clearResults completeState.state).results = [] ∧
    (clearResults completeState.state).stats = ⟨0, 0, 0, 0, none, none⟩ ∧
    (runStart 5 2000 completeState.state).results = [] ∧
    (runStart 5 2000 completeState.state).stats = ⟨5, 0, 0, 0, some 2000, none⟩ :=
  ⟨rfl, rfl, rfl, rfl, rfl, rfl⟩

end WorkerPoolTester
